import Mathlib

/-!
Shallow embedding of `pytransform3d/transform_manager/_temporal_transform_manager.py`
(the `TimeTransform` / `StaticTransform` hierarchy and `TemporalTransformManager`),
together with a spec-modelled `get_transform` for the missing base class
`TransformGraphBase`, and proofs of the frozen claims about this code.

Modelling conventions:
* 4x4 matrices are external opaque values (the numeric layer is out of scope per
  the spec); the development is parameterised by the matrix type `M`.  External
  matrix operations (identity, multiplication, inversion, the `check_transform`
  validity check) are passed in explicitly.
* Python's dynamic values stored in `self._transforms` are modelled by `PyVal`:
  either a raw matrix (an ndarray, which has no `as_matrix` method) or a
  `TimeTransform` instance.  Calling `as_matrix` on a raw matrix is Python's
  `AttributeError`, modelled by `Option`/`Except` failure.
* Time is an opaque scalar that is only stored and passed around, never computed
  with; we model it as `Int` with default `0` standing for Python's `0.0`.
* Python dicts keyed by frame pairs are association lists with Python's
  dict semantics (overwrite in place, append new keys, deletion removes the key).
* Mutation is explicit state passing: a Python method that mutates `self`
  becomes a function returning the updated state.
-/

abbrev Frame := String

abbrev Key := Frame × Frame

abbrev Time := Int

/-- Python `d[k]` as a total lookup: `some` of the first (unique) binding. -/
def dictGet {V : Type} (d : List (Key × V)) (k : Key) : Option V :=
  (d.find? (fun kv => decide (kv.1 = k))).map (fun kv => kv.2)

/-- Python `d in` membership test. -/
def dictMem {V : Type} (d : List (Key × V)) (k : Key) : Bool :=
  d.any (fun kv => decide (kv.1 = k))

/-- Python `d[k] = v`: overwrite in place if present, else append. -/
def dictSet {V : Type} (d : List (Key × V)) (k : Key) (v : V) : List (Key × V) :=
  if dictMem d k then
    d.map (fun kv => if kv.1 = k then (k, v) else kv)
  else
    d ++ [(k, v)]

/-- Python `del d[k]`: removes the binding of `k` (no-op here when absent;
the `KeyError` of a missing key is handled by callers, which the claims do
not exercise). -/
def dictDel {V : Type} (d : List (Key × V)) (k : Key) : List (Key × V) :=
  d.filter (fun kv => !(decide (kv.1 = k)))

/-- Python exceptions that this code can raise or propagate. -/
inductive PyError where
  | NoPathError
  | AttributeError
  | KeyError
  | InvalidTransformError
deriving DecidableEq

/-- `StaticTransform.__init__` stores the matrix in `self._A2B`;
`StaticTransform` is the "transformation which does not change over time". -/
structure StaticTransform (M : Type) where
  _A2B : M
deriving DecidableEq

/-- `StaticTransform.as_matrix(self, time)`: `return self._A2B`. -/
def StaticTransform.as_matrix {M : Type} (st : StaticTransform M) (_time : Time) : M :=
  st._A2B

/-- `StaticTransform.check_transforms(self)`:
`self._A2B = check_transform(self._A2B); return self`.
The external `check_transform` (from `..transformations`, out of scope per the
spec) is passed as `chk`; if it raises, the exception propagates and `self` is
left unmodified (the assignment never happens). The returned object is the
mutated `self`, modelled as the updated structure. -/
def StaticTransform.check_transforms {M : Type} (chk : M → Except PyError M)
    (st : StaticTransform M) : Except PyError (StaticTransform M) :=
  match chk st._A2B with
  | .error e => .error e
  | .ok m => .ok ⟨m⟩

/-- The `TimeTransform` abstract base class: a value is either the concrete
`StaticTransform` subclass from this file or a user-supplied subclass with its
own `as_matrix(time)`.  The ABC contract for `check_transforms` is "if checks
are successful, returns the original object"; for a user subclass we model it
by that contract (returning the object unchanged), which is all the claims
need. -/
inductive TimeTransform (M : Type) where
  | static (st : StaticTransform M)
  | user (eval : Time → M)

/-- Dynamic dispatch of `as_matrix` on a `TimeTransform` instance. -/
def TimeTransform.as_matrix {M : Type} : TimeTransform M → Time → M
  | .static st, time => st.as_matrix time
  | .user eval, time => eval time

/-- Dynamic dispatch of `check_transforms` on a `TimeTransform` instance. -/
def TimeTransform.check_transforms {M : Type} (chk : M → Except PyError M) :
    TimeTransform M → Except PyError (TimeTransform M)
  | .static st => match st.check_transforms chk with
      | .error e => .error e
      | .ok st2 => .ok (.static st2)
  | .user eval => .ok (.user eval)

/-- A Python value that can reach `TemporalTransformManager._set_transform`:
either a raw matrix (ndarray) or a `TimeTransform` instance.  This mirrors the
`isinstance(A2B, TimeTransform)` dynamic test in the source. -/
inductive PyVal (M : Type) where
  | matrix (m : M)
  | timeTransform (t : TimeTransform M)

/-- `isinstance(A2B, TimeTransform)`. -/
def PyVal.isTimeTransform {M : Type} : PyVal M → Bool
  | .matrix _ => false
  | .timeTransform _ => true

/-- Calling `.as_matrix(time)` on a dynamic value: a raw matrix has no such
attribute, so Python raises `AttributeError`, modelled by `none`. -/
def PyVal.as_matrix {M : Type} : PyVal M → Time → Option M
  | .matrix _, _ => none
  | .timeTransform t, time => some (t.as_matrix time)

/-- Calling `.check_transforms()` on a dynamic value (used by
`_check_transform`); a raw matrix raises `AttributeError`. -/
def PyVal.check_transforms {M : Type} (chk : M → Except PyError M) :
    PyVal M → Except PyError (PyVal M)
  | .matrix _ => .error .AttributeError
  | .timeTransform t => match t.check_transforms chk with
      | .error e => .error e
      | .ok t2 => .ok (.timeTransform t2)

/-- The mutable state of a `TemporalTransformManager`: the `_transforms` dict
and the `_current_time` scalar set in `__init__` (the `strict_check`/`check`
flags are forwarded to the base class, which is not part of this state). -/
structure TemporalTransformManager (M : Type) where
  _transforms : List (Key × PyVal M)
  _current_time : Time

namespace TemporalTransformManager

/-- `TemporalTransformManager.__init__`: `self._transforms = {}`,
`self._current_time = 0.0` (the `strict_check` and `check` arguments only
configure the base class's validation behaviour). -/
def init (M : Type) (_strict_check : Bool) (_check : Bool) :
    TemporalTransformManager M :=
  { _transforms := [], _current_time := 0 }

/-- The `current_time` property: `return self._current_time`. -/
def current_time {M : Type} (m : TemporalTransformManager M) : Time :=
  m._current_time

/-- `set_time(self, time)`: `self._current_time = time`. -/
def set_time {M : Type} (m : TemporalTransformManager M) (time : Time) :
    TemporalTransformManager M :=
  { m with _current_time := time }

/-- Evaluation of every stored value at a given time, in dict order; the first
`AttributeError` (raw matrix) aborts the whole comprehension. -/
def evalAll {M : Type} (time : Time) :
    List (Key × PyVal M) → Option (List (Key × M))
  | [] => some []
  | kv :: rest =>
      match kv.2.as_matrix time, evalAll time rest with
      | some a, some l => some ((kv.1, a) :: l)
      | _, _ => none

/-- The `transforms` property:
`{tf_direction: transform.as_matrix(self.current_time) for tf_direction,
transform in self._transforms.items()}`. -/
def transforms {M : Type} (m : TemporalTransformManager M) :
    Option (List (Key × M)) :=
  evalAll m.current_time m._transforms

/-- `_transform_available(self, key)`: `return key in self._transforms`. -/
def _transform_available {M : Type} (m : TemporalTransformManager M)
    (key : Key) : Bool :=
  dictMem m._transforms key

/-- `_set_transform(self, key, A2B)`: wrap a non-`TimeTransform` value in
`StaticTransform`, then `self._transforms[key] = A2B`. -/
def _set_transform {M : Type} (m : TemporalTransformManager M) (key : Key)
    (A2B : PyVal M) : TemporalTransformManager M :=
  let A2B2 :=
    if A2B.isTimeTransform then A2B
    else match A2B with
      | .matrix mtx => .timeTransform (.static ⟨mtx⟩)
      | v => v
  { m with _transforms := dictSet m._transforms key A2B2 }

/-- `_get_transform(self, key)`: `return self.transforms[key]` — the whole
`transforms` dict is materialised at the ambient time and then indexed; a
missing key is `KeyError`, and a raw stored matrix surfaces the comprehension's
`AttributeError`; both are modelled by `none`. -/
def _get_transform {M : Type} (m : TemporalTransformManager M) (key : Key) :
    Option M :=
  match m.transforms with
  | none => none
  | some d => dictGet d key

/-- `_del_transform(self, key)`: `del self._transforms[key]`. -/
def _del_transform {M : Type} (m : TemporalTransformManager M) (key : Key) :
    TemporalTransformManager M :=
  { m with _transforms := dictDel m._transforms key }

/-- `_check_transform(self, A2B)`: `return A2B.check_transforms()`. -/
def _check_transform {M : Type} (chk : M → Except PyError M)
    (A2B : PyVal M) : Except PyError (PyVal M) :=
  A2B.check_transforms chk

end TemporalTransformManager

/-- External matrix operations consumed as opaque algebra (spec section 1:
"numeric matrix/vector primitives ... consumed as opaque operations"). -/
structure MatrixOps (M : Type) where
  one : M
  mul : M → M → M
  inv : M → M

namespace TemporalTransformManager

/-- Modelled from the spec: the undirected adjacency view used by path
discovery in the missing base class `TransformGraphBase` ("edges viewed as
bidirectional for reachability, even though each stored edge has one canonical
registered direction"), in edge-insertion order. -/
def undirectedNeighbors {M : Type} (d : List (Key × PyVal M)) (f : Frame) :
    List Frame :=
  d.filterMap (fun kv =>
    if kv.1.1 = f then some kv.1.2
    else if kv.1.2 = f then some kv.1.1
    else none)

/-- Modelled from the spec: breadth-first search of the missing base class
`TransformGraphBase` over the undirected view, first-discovered-wins, fewest
edge hops; returns the frame path from start to `goal` or `none` when no path
exists.  The queue holds `(frame, reversed path to its predecessor)`; `fuel`
only bounds the recursion and is chosen large enough never to run out. -/
def bfsSearch {M : Type} (d : List (Key × PyVal M)) (goal : Frame) :
    Nat → List Frame → List (Frame × List Frame) → Option (List Frame)
  | 0, _, _ => none
  | _ + 1, _, [] => none
  | fuel + 1, visited, (f, revPath) :: rest =>
      if f = goal then some (f :: revPath).reverse
      else if visited.contains f then bfsSearch d goal fuel visited rest
      else
        bfsSearch d goal fuel (f :: visited)
          (rest ++ (undirectedNeighbors d f).map (fun g => (g, f :: revPath)))

/-- Modelled from the spec: one step of edge evaluation in the missing base
class's `get_transform` — "if traversed in the registered direction, use the
evaluated matrix directly; if traversed in reverse, use its algebraic
inverse"; evaluation of a raw stored matrix surfaces `AttributeError`. -/
def edgeMatrix {M : Type} (ops : MatrixOps M) (d : List (Key × PyVal M))
    (time : Time) (x y : Frame) : Except PyError M :=
  match dictGet d (x, y) with
  | some v =>
      match v.as_matrix time with
      | some mtx => .ok mtx
      | none => .error .AttributeError
  | none =>
      match dictGet d (y, x) with
      | some v =>
          match v.as_matrix time with
          | some mtx => .ok (ops.inv mtx)
          | none => .error .AttributeError
      | none => .error .NoPathError

/-- Modelled from the spec: composition of the per-edge matrices along the
path "in path order, left-multiplying successive transforms". -/
def composeAlong {M : Type} (ops : MatrixOps M) (d : List (Key × PyVal M))
    (time : Time) : Frame → List Frame → M → Except PyError M
  | _, [], acc => .ok acc
  | x, y :: rest, acc =>
      match edgeMatrix ops d time x y with
      | .error e => .error e
      | .ok mtx => composeAlong ops d time y rest (ops.mul mtx acc)

/-- Modelled from the spec: `TransformGraphBase.get_transform(from, to)` of the
missing base class, at the ambient `current_time` — identity short-circuit for
equal frames, BFS path discovery, per-edge evaluation at the ambient time,
composition, `NoPathError` when the frames are not connected.  It reads the
manager state and never mutates it (in particular it never touches
`_current_time`). -/
def get_transform {M : Type} (ops : MatrixOps M)
    (m : TemporalTransformManager M) (a b : Frame) : Except PyError M :=
  if a = b then .ok ops.one
  else
    match bfsSearch m._transforms b
        ((m._transforms.length + 1) * (2 * m._transforms.length + 2) + 2)
        [] [(a, [])] with
    | none => .error .NoPathError
    | some [] => .error .NoPathError
    | some (x :: rest) => composeAlong ops m._transforms m.current_time x rest ops.one

/-- `get_transform_in_time(self, from_frame, to_frame, time)` from the source:
saves `self._current_time`, calls `set_time(time)`, delegates to
`get_transform`, then calls `set_time(previous_time)` and returns.  There is no
`try/finally`: when `get_transform` raises, the exception propagates *before*
the restoring `set_time` line runs, so the state keeps the overridden time. -/
def get_transform_in_time {M : Type} (ops : MatrixOps M)
    (m : TemporalTransformManager M) (from_frame to_frame : Frame)
    (time : Time) : Except PyError M × TemporalTransformManager M :=
  let previous_time := m._current_time
  let m1 := m.set_time time
  match get_transform ops m1 from_frame to_frame with
  | .error e => (.error e, m1)
  | .ok A2B => (.ok A2B, m1.set_time previous_time)

end TemporalTransformManager

/-! ### Helper lemmas about the dict model -/

theorem dictGet_nil {V : Type} (k : Key) : dictGet ([] : List (Key × V)) k = none := rfl

theorem dictGet_cons {V : Type} (p : Key × V) (d : List (Key × V)) (k : Key) :
    dictGet (p :: d) k = if p.1 = k then some p.2 else dictGet d k := by
  by_cases h : p.1 = k <;> simp [dictGet, List.find?, h]

theorem dictMem_iff_dictGet {V : Type} (d : List (Key × V)) (k : Key) :
    dictMem d k = true ↔ ∃ v, dictGet d k = some v := by
  induction d with
  | nil => simp [dictMem, dictGet]
  | cons p rest ih =>
      by_cases h : p.1 = k
      · simp [dictMem, dictGet_cons, h]
      · simp only [dictMem, List.any_cons, decide_eq_true_eq, h, Bool.false_or,
          dictGet_cons, if_neg h]
        exact ih

theorem dictGet_replace_self {V : Type} (d : List (Key × V)) (k : Key) (v : V)
    (hmem : dictMem d k = true) :
    dictGet (d.map (fun kv => if kv.1 = k then (k, v) else kv)) k = some v := by
  induction d with
  | nil => simp [dictMem] at hmem
  | cons p rest ih =>
      by_cases h : p.1 = k
      · simp [dictGet_cons, h]
      · simp only [List.map_cons, if_neg h, dictGet_cons, h, if_false]
        simp only [dictMem, List.any_cons, decide_eq_true_eq, h,
          Bool.false_or] at hmem
        exact ih hmem

theorem dictGet_replace_ne {V : Type} (d : List (Key × V)) (k k2 : Key) (v : V)
    (hne : k2 ≠ k) :
    dictGet (d.map (fun kv => if kv.1 = k then (k, v) else kv)) k2 =
      dictGet d k2 := by
  induction d with
  | nil => rfl
  | cons p rest ih =>
      by_cases h : p.1 = k
      · simp [List.map_cons, h, dictGet_cons, Ne.symm hne, ih]
      · simp [List.map_cons, if_neg h, dictGet_cons, ih]

theorem dictGet_append_self {V : Type} (d : List (Key × V)) (k : Key) (v : V)
    (hmem : dictMem d k = false) : dictGet (d ++ [(k, v)]) k = some v := by
  induction d with
  | nil => simp [dictGet_cons]
  | cons p rest ih =>
      simp only [dictMem, List.any_cons, Bool.or_eq_false_iff,
        decide_eq_false_iff_not] at hmem
      simp only [List.cons_append, dictGet_cons, hmem.1, if_false]
      exact ih (by simp [dictMem, hmem.2])

theorem dictGet_append_ne {V : Type} (d : List (Key × V)) (k k2 : Key) (v : V)
    (hne : k2 ≠ k) : dictGet (d ++ [(k, v)]) k2 = dictGet d k2 := by
  induction d with
  | nil => simp [dictGet_cons, Ne.symm hne, dictGet]
  | cons p rest ih =>
      simp only [List.cons_append, dictGet_cons]
      by_cases h2 : p.1 = k2
      · simp [h2]
      · simp only [h2, if_false]
        exact ih

theorem dictGet_dictSet_self {V : Type} (d : List (Key × V)) (k : Key) (v : V) :
    dictGet (dictSet d k v) k = some v := by
  unfold dictSet
  by_cases hmem : dictMem d k
  · simp only [hmem, if_true]
    exact dictGet_replace_self d k v hmem
  · simp only [hmem, if_false]
    exact dictGet_append_self d k v (by simpa using hmem)

theorem dictGet_dictSet_ne {V : Type} (d : List (Key × V)) (k k2 : Key) (v : V)
    (hne : k2 ≠ k) : dictGet (dictSet d k v) k2 = dictGet d k2 := by
  unfold dictSet
  by_cases hmem : dictMem d k
  · simp only [hmem, if_true]
    exact dictGet_replace_ne d k k2 v hne
  · simp only [hmem, if_false]
    exact dictGet_append_ne d k k2 v hne

/-! ### Claim theorems: StaticTransform and the simple manager operations -/

/-- C3: for a `StaticTransform` built from matrix `A2B`, `as_matrix` returns
the stored matrix for every time and is independent of the time argument.  In
this embedding `as_matrix` is a pure function `StaticTransform M → Time → M`:
it has no state to mutate — neither the object nor any manager state appears
in its output type — so the no-side-effect part of the claim holds by
construction. -/
theorem staticTransform_as_matrix_constant {M : Type} (A2B : M) (t t2 : Time) :
    (StaticTransform.mk A2B).as_matrix t = A2B ∧
    (StaticTransform.mk A2B).as_matrix t = (StaticTransform.mk A2B).as_matrix t2 :=
  ⟨rfl, rfl⟩

/-- C4: `_set_transform` wraps a raw matrix in `StaticTransform` and stores a
`TimeTransform` unchanged; afterwards the map at that key holds the (possibly
wrapped) value. -/
theorem set_transform_stores_wrapped {M : Type}
    (m : TemporalTransformManager M) (key : Key) (A2B : PyVal M) :
    dictGet (m._set_transform key A2B)._transforms key =
      some (match A2B with
            | .matrix mtx => .timeTransform (.static ⟨mtx⟩)
            | .timeTransform t => .timeTransform t) := by
  cases A2B <;>
    simp [TemporalTransformManager._set_transform, PyVal.isTimeTransform,
      dictGet_dictSet_self]

/-- C7: a fresh manager has `current_time = 0` (Python's `0.0` default);
`set_time t` makes `current_time` return `t` and leaves the `_transforms`
map untouched; and no other operation in this file changes `_current_time`
(`_set_transform` and `_del_transform` are included as conjuncts). -/
theorem current_time_lifecycle {M : Type} (sc c : Bool)
    (m : TemporalTransformManager M) (t : Time) (key : Key) (v : PyVal M) :
    (TemporalTransformManager.init M sc c).current_time = 0 ∧
    (m.set_time t).current_time = t ∧
    (m.set_time t)._transforms = m._transforms ∧
    (m._set_transform key v).current_time = m.current_time ∧
    (m._del_transform key).current_time = m.current_time :=
  ⟨rfl, rfl, rfl, rfl, rfl⟩

theorem dictMem_dictSet_ne {V : Type} (d : List (Key × V)) (k k2 : Key) (v : V)
    (hne : k2 ≠ k) : dictMem (dictSet d k v) k2 = dictMem d k2 := by
  have h1 := dictMem_iff_dictGet (dictSet d k v) k2
  have h2 := dictMem_iff_dictGet d k2
  rw [dictGet_dictSet_ne d k k2 v hne] at h1
  cases hb : dictMem d k2
  · cases hl : dictMem (dictSet d k v) k2
    · rfl
    · exact absurd (h2.mpr (h1.mp hl)) (by simp [hb])
  · exact h1.mpr (h2.mp hb)

theorem dictGet_eq_some_mem {V : Type} (d : List (Key × V)) (k : Key) (v : V)
    (h : dictGet d k = some v) : (k, v) ∈ d := by
  unfold dictGet at h
  cases hf : d.find? (fun kv => decide (kv.1 = k)) with
  | none => simp [hf] at h
  | some kv =>
      rw [hf] at h
      have hmem := List.mem_of_find?_eq_some hf
      have hpred := List.find?_some hf
      simp only [decide_eq_true_eq] at hpred
      obtain ⟨k0, v0⟩ := kv
      simp only [Option.map, Option.some.injEq] at h
      simp only at hpred
      subst hpred
      subst h
      exact hmem

/-- The store well-formedness invariant: every stored value is a
`TimeTransform` instance (never a raw matrix). -/
def storeWF {M : Type} (d : List (Key × PyVal M)) : Bool :=
  d.all (fun kv => kv.2.isTimeTransform)

theorem evalAll_of_storeWF {M : Type} (t : Time) (d : List (Key × PyVal M))
    (h : storeWF d = true) :
    ∃ l, TemporalTransformManager.evalAll t d = some l ∧
      l.map Prod.fst = d.map Prod.fst ∧
      ∀ k, dictGet l k = (dictGet d k).bind (fun v => v.as_matrix t) := by
  induction d with
  | nil => exact ⟨[], rfl, rfl, fun k => rfl⟩
  | cons p rest ih =>
      simp only [storeWF, List.all_cons, Bool.and_eq_true] at h
      obtain ⟨l, hl, hkeys, hget⟩ := ih h.2
      cases p2 : p.2 with
      | matrix mtx =>
          rw [p2] at h
          simp [PyVal.isTimeTransform] at h
      | timeTransform u =>
          refine ⟨(p.1, u.as_matrix t) :: l, ?_, ?_, ?_⟩
          · simp [TemporalTransformManager.evalAll, p2, PyVal.as_matrix, hl]
          · simp [hkeys]
          · intro k
            by_cases hk : p.1 = k <;>
              simp [dictGet_cons, hk, hget k, p2, PyVal.as_matrix]

theorem storeWF_as_matrix_isSome {M : Type} (d : List (Key × PyVal M))
    (k : Key) (v : PyVal M) (t : Time) (hWF : storeWF d = true)
    (h : dictGet d k = some v) : (v.as_matrix t).isSome = true := by
  have hmem := dictGet_eq_some_mem d k v h
  have hv := (List.all_eq_true.mp hWF) _ hmem
  cases v with
  | matrix mtx => simp [PyVal.isTimeTransform] at hv
  | timeTransform u => simp [PyVal.as_matrix]

/-- C6: `_transform_available key` is true iff the exact directed key is in
the `_transforms` map, and registering the edge `(A, B)` for `A ≠ B` does not
change whether the reverse key `(B, A)` is available. -/
theorem transform_available_iff_registered {M : Type}
    (m : TemporalTransformManager M) (key : Key) (A B : Frame) (v : PyVal M)
    (hAB : A ≠ B) :
    (m._transform_available key = true ↔
      ∃ w, dictGet m._transforms key = some w) ∧
    (m._set_transform key v)._transform_available key = true ∧
    (m._set_transform (A, B) v)._transform_available (B, A) =
      m._transform_available (B, A) := by
  refine ⟨dictMem_iff_dictGet _ _, ?_, ?_⟩
  · apply (dictMem_iff_dictGet _ _).mpr
    exact ⟨_, dictGet_dictSet_self _ _ _⟩
  · have hne : ((B, A) : Key) ≠ (A, B) := by
      intro hcontra
      exact hAB ((Prod.mk.injEq B A A B).mp hcontra).2
    exact dictMem_dictSet_ne m._transforms (A, B) (B, A) _ hne

/-- C8: under the store invariant, the `transforms` property materialises a
dict with exactly the registered keys (in order) whose value at each key is
the stored transform evaluated at the ambient `current_time`; the property is
a pure read (its type consumes the state and returns only the dict). -/
theorem transforms_property_spec {M : Type} (m : TemporalTransformManager M)
    (h : storeWF m._transforms = true) :
    ∃ l, m.transforms = some l ∧
      l.map Prod.fst = m._transforms.map Prod.fst ∧
      ∀ k, dictGet l k = (dictGet m._transforms k).bind
        (fun v => v.as_matrix m.current_time) :=
  evalAll_of_storeWF m.current_time m._transforms h

/-- C9: under the store invariant, `_get_transform key` — which materialises
the whole `transforms` dict and indexes it — agrees with evaluating only that
edge's stored transform at the ambient time, and that direct evaluation
succeeds. -/
theorem get_transform_key_single_edge {M : Type}
    (m : TemporalTransformManager M) (k : Key) (v : PyVal M)
    (hWF : storeWF m._transforms = true)
    (hreg : dictGet m._transforms k = some v) :
    m._get_transform k = v.as_matrix m.current_time ∧
    (v.as_matrix m.current_time).isSome = true := by
  obtain ⟨l, hl, _, hget⟩ :=
    evalAll_of_storeWF m.current_time m._transforms hWF
  refine ⟨?_, storeWF_as_matrix_isSome _ k v _ hWF hreg⟩
  unfold TemporalTransformManager._get_transform
  have hT : m.transforms = some l := hl
  rw [hT]
  simp [hget k, hreg]

/-- C5: on a successful external check, `StaticTransform.check_transforms`
replaces the stored matrix with the checked result and returns the mutated
object itself (the same object, modelled as the updated structure standing for
`self`); the `_check_transform` hook dispatches to exactly this; subsequent
`as_matrix` calls return the checked matrix; and the result depends on the
external `check_transform` only through its single application to the stored
matrix. -/
theorem check_transforms_static_once {M : Type} (chk : M → Except PyError M)
    (st : StaticTransform M) (m2 : M) (h : chk st._A2B = .ok m2) :
    st.check_transforms chk = .ok ⟨m2⟩ ∧
    (∀ t, (StaticTransform.mk m2).as_matrix t = m2) ∧
    TemporalTransformManager._check_transform chk
        (.timeTransform (.static st)) =
      .ok (.timeTransform (.static ⟨m2⟩)) ∧
    ∀ chk2 : M → Except PyError M, chk2 st._A2B = chk st._A2B →
      st.check_transforms chk2 = st.check_transforms chk := by
  refine ⟨?_, fun t => rfl, ?_, ?_⟩
  · simp [StaticTransform.check_transforms, h]
  · simp [TemporalTransformManager._check_transform, PyVal.check_transforms,
      TimeTransform.check_transforms, StaticTransform.check_transforms, h]
  · intro chk2 hagree
    simp [StaticTransform.check_transforms, hagree]

/-- The states reachable through the manager's constructor and the mutating
operations defined in this file (`_set_transform`, `_del_transform`,
`set_time`); the base class mutates `_transforms` only through these hooks. -/
inductive Reachable {M : Type} : TemporalTransformManager M → Prop where
  | init (sc c : Bool) : Reachable (TemporalTransformManager.init M sc c)
  | set_transform (m : TemporalTransformManager M) (k : Key) (v : PyVal M) :
      Reachable m → Reachable (m._set_transform k v)
  | del_transform (m : TemporalTransformManager M) (k : Key) :
      Reachable m → Reachable (m._del_transform k)
  | set_time (m : TemporalTransformManager M) (t : Time) :
      Reachable m → Reachable (m.set_time t)

theorem storeWF_dictSet {M : Type} (d : List (Key × PyVal M)) (k : Key)
    (w : PyVal M) (hWF : storeWF d = true) (hw : w.isTimeTransform = true) :
    storeWF (dictSet d k w) = true := by
  unfold dictSet
  by_cases hmem : dictMem d k
  · simp only [hmem, if_true]
    rw [storeWF, List.all_eq_true]
    intro kv hkv
    rw [List.mem_map] at hkv
    obtain ⟨kv0, hkv0, heq⟩ := hkv
    by_cases h : kv0.1 = k
    · rw [if_pos h] at heq
      rw [← heq]
      exact hw
    · rw [if_neg h] at heq
      rw [← heq]
      exact (List.all_eq_true.mp hWF) kv0 hkv0
  · rw [if_neg hmem]
    rw [storeWF, List.all_append]
    rw [storeWF] at hWF
    simp [hWF, hw]

/-- C10: every reachable manager state stores only `TimeTransform` instances
(`_set_transform` wraps raw matrices, `_del_transform` only removes,
`set_time` leaves the map alone), so the `transforms` property succeeds and
`as_matrix` succeeds on every stored value. -/
theorem reachable_store_invariant {M : Type} (m : TemporalTransformManager M)
    (h : Reachable m) :
    storeWF m._transforms = true ∧ m.transforms.isSome = true ∧
    ∀ k v, dictGet m._transforms k = some v →
      (v.as_matrix m.current_time).isSome = true := by
  have hWF : storeWF m._transforms = true := by
    induction h with
    | init sc c => rfl
    | set_transform m0 k v _ ih =>
        cases v with
        | matrix mtx =>
            exact storeWF_dictSet m0._transforms k _ ih rfl
        | timeTransform u =>
            exact storeWF_dictSet m0._transforms k _ ih rfl
    | del_transform m0 k _ ih =>
        rw [storeWF, List.all_eq_true]
        intro kv hkv
        exact (List.all_eq_true.mp ih) kv (List.mem_of_mem_filter hkv)
    | set_time m0 t _ ih => exact ih
  obtain ⟨l, hl, _, _⟩ := evalAll_of_storeWF m.current_time m._transforms hWF
  refine ⟨hWF, ?_, ?_⟩
  · rw [show m.transforms = some l from hl]
    rfl
  · intro k v hv
    exact storeWF_as_matrix_isSome m._transforms k v m.current_time hWF hv

/-- C2: when the delegated query succeeds, `get_transform_in_time` returns
exactly the matrix that `get_transform` returns on the same graph state with
`current_time` set to the overridden `time`. -/
theorem get_transform_in_time_delegates {M : Type} (ops : MatrixOps M)
    (m : TemporalTransformManager M) (a b : Frame) (t : Time) (v : M)
    (h : TemporalTransformManager.get_transform ops (m.set_time t) a b = .ok v) :
    (TemporalTransformManager.get_transform_in_time ops m a b t).1 = .ok v := by
  unfold TemporalTransformManager.get_transform_in_time
  simp [h]

/-- C1 (amended): `get_transform_in_time` evaluates `get_transform` with
`current_time` overridden to `time`; on a successful inner query the saved
ambient time is restored (the final state is exactly the initial one), but
when the inner query raises, the exception propagates before the restoring
`set_time` line, so the final state keeps the overridden time. -/
theorem get_transform_in_time_state {M : Type} (ops : MatrixOps M)
    (m : TemporalTransformManager M) (a b : Frame) (t : Time) :
    TemporalTransformManager.get_transform_in_time ops m a b t =
      (TemporalTransformManager.get_transform ops (m.set_time t) a b,
       match TemporalTransformManager.get_transform ops (m.set_time t) a b with
       | .ok _ => m
       | .error _ => m.set_time t) := by
  simp only [TemporalTransformManager.get_transform_in_time]
  cases h : TemporalTransformManager.get_transform ops (m.set_time t) a b <;> rfl

/-! ### Concrete instances used by the counterexample and the witnesses -/

/-- Concrete opaque-matrix algebra over `Int` used only to instantiate the
parametric theorems on concrete inputs. -/
def opsW : MatrixOps Int := ⟨1, fun x y => x * y, fun x => -x⟩

/-- A freshly constructed manager (empty graph, default time). -/
def mgrEmpty : TemporalTransformManager Int := ⟨[], 0⟩

/-- A manager with one registered static edge `("a", "b") ↦ 5`. -/
def mgrW : TemporalTransformManager Int :=
  ⟨[(("a", "b"), .timeTransform (.static ⟨5⟩))], 0⟩

/-- A reachable manager state: a fresh manager after registering a raw matrix. -/
def mgrR : TemporalTransformManager Int :=
  (TemporalTransformManager.init Int true true)._set_transform ("a", "b")
    (.matrix 7)

/-- A concrete external `check_transform` used in the C5 witness. -/
def chkW : Int → Except PyError Int := fun m => .ok (m + 1)

/-- C1 counterexample: on an empty graph, `get_transform_in_time` with
override time `1` propagates `NoPathError`, and afterwards the ambient
`current_time` observed on the resulting state is the override `1`, not the
saved `0` — the saved ambient time is *not* restored on the error exit path. -/
theorem get_transform_in_time_error_leaves_time :
    (TemporalTransformManager.get_transform_in_time opsW mgrEmpty "a" "b" 1).1 =
      .error PyError.NoPathError ∧
    (TemporalTransformManager.get_transform_in_time opsW mgrEmpty "a" "b" 1).2.current_time = 1 ∧
    mgrEmpty.current_time = 0 :=
  ⟨rfl, rfl, rfl⟩

/-- Witness for C2 at a concrete input: one static edge, override time `2`,
the delegated query succeeds with the stored matrix. -/
theorem get_transform_in_time_delegates_witness :
    TemporalTransformManager.get_transform opsW (mgrW.set_time 2) "a" "b" =
      .ok 5 ∧
    (TemporalTransformManager.get_transform_in_time opsW mgrW "a" "b" 2).1 =
      .ok 5 :=
  ⟨rfl, get_transform_in_time_delegates opsW mgrW "a" "b" 2 5 rfl⟩

/-- Witness for C5 at a concrete input: `chkW` maps the stored `3` to `4`. -/
theorem check_transforms_static_once_witness :
    chkW (StaticTransform.mk (3 : Int))._A2B = .ok 4 ∧
    ((StaticTransform.mk (3 : Int)).check_transforms chkW = .ok ⟨4⟩ ∧
     (∀ t, (StaticTransform.mk (4 : Int)).as_matrix t = 4) ∧
     TemporalTransformManager._check_transform chkW
         (.timeTransform (.static ⟨3⟩)) =
       .ok (.timeTransform (.static ⟨4⟩)) ∧
     ∀ chk2 : Int → Except PyError Int,
       chk2 (StaticTransform.mk (3 : Int))._A2B =
         chkW (StaticTransform.mk (3 : Int))._A2B →
       (StaticTransform.mk (3 : Int)).check_transforms chk2 =
         (StaticTransform.mk (3 : Int)).check_transforms chkW) :=
  ⟨rfl, check_transforms_static_once chkW ⟨3⟩ 4 rfl⟩

/-- Witness for C6 at a concrete input: frames `"a" ≠ "b"`. -/
theorem transform_available_iff_registered_witness :
    ("a" : Frame) ≠ "b" ∧
    ((mgrW._transform_available ("a", "b") = true ↔
        ∃ w, dictGet mgrW._transforms ("a", "b") = some w) ∧
     (mgrW._set_transform ("a", "b") (.matrix 7))._transform_available
         ("a", "b") = true ∧
     (mgrW._set_transform ("a", "b") (.matrix 7))._transform_available
         ("b", "a") = mgrW._transform_available ("b", "a")) :=
  ⟨by decide,
   transform_available_iff_registered mgrW ("a", "b") "a" "b" (.matrix 7)
     (by decide)⟩

/-- Witness for C8 at a concrete input: the one-edge manager is well formed. -/
theorem transforms_property_spec_witness :
    storeWF mgrW._transforms = true ∧
    ∃ l, mgrW.transforms = some l ∧
      l.map Prod.fst = mgrW._transforms.map Prod.fst ∧
      ∀ k, dictGet l k = (dictGet mgrW._transforms k).bind
        (fun v => v.as_matrix mgrW.current_time) :=
  ⟨rfl, transforms_property_spec mgrW rfl⟩

/-- Witness for C9 at a concrete input: the single registered edge of `mgrW`. -/
theorem get_transform_key_single_edge_witness :
    storeWF mgrW._transforms = true ∧
    dictGet mgrW._transforms ("a", "b") =
      some (.timeTransform (.static ⟨5⟩)) ∧
    (mgrW._get_transform ("a", "b") =
      PyVal.as_matrix (.timeTransform (.static ⟨5⟩)) mgrW.current_time ∧
     (PyVal.as_matrix (.timeTransform (.static ⟨5⟩))
        mgrW.current_time).isSome = true) :=
  ⟨rfl, rfl,
   get_transform_key_single_edge mgrW ("a", "b")
     (.timeTransform (.static ⟨5⟩)) rfl rfl⟩

/-- Witness for C10 at a concrete input: `mgrR` is reachable (init followed by
one `_set_transform` of a raw matrix). -/
theorem reachable_store_invariant_witness :
    Reachable mgrR ∧
    (storeWF mgrR._transforms = true ∧ mgrR.transforms.isSome = true ∧
     ∀ k v, dictGet mgrR._transforms k = some v →
       (v.as_matrix mgrR.current_time).isSome = true) :=
  ⟨Reachable.set_transform _ _ _ (Reachable.init true true),
   reachable_store_invariant mgrR
     (Reachable.set_transform _ _ _ (Reachable.init true true))⟩
